import Mathlib

/-
Verification of the automated-juice-kiosk motion core.

Shallow embedding conventions:
  * Python floats are embedded as rationals (`Rat`); numeric payloads inside
    wire frames are rendered with `toString`, abstracting Python's decimal
    formatting (the properties verified concern token structure and the
    frame envelope, never the decimal rendering of a number).
  * The wall clock (`datetime.now().isoformat()`) is threaded through as an
    explicit `now : String` argument wherever the source calls it.
  * `json.dump` followed by `json.load` is the identity on the document
    value, so persistence is modelled at the level of a JSON document AST
    (`JValue`), mirroring Python's int/float distinction.
  * The pyserial transport is external to the repository; it is modelled by
    an oracle (`Transport`) saying whether `open` succeeds and which writes
    succeed, and the runner produces an observable event trace.
-/

set_option maxRecDepth 8000

namespace JuiceKiosk

/-- JSON document values as produced by `json.load` and consumed by
`json.dump`.  Python's json module keeps `int` and `float` distinct, hence
the two numeric constructors. -/
inductive JValue where
  | str (s : String)
  | int (n : Int)
  | num (q : Rat)
  | bool (b : Bool)
  | null
  | arr (xs : List JValue)
  | obj (fields : List (String × JValue))

/-- Dictionary lookup: first binding of key `k`, as `dict` access. -/
def jlookup (fields : List (String × JValue)) (k : String) : Option JValue :=
  (fields.find? (fun kv => kv.1 == k)).map (fun kv => kv.2)

/-- Test whether `pat` occurs at the head of `cs`. -/
def matchesAt : List Char → List Char → Bool
  | [], _ => true
  | _ :: _, [] => false
  | p :: ps, c :: cs => p == c && matchesAt ps cs

/-- Left-to-right, non-overlapping removal of every occurrence of `pat`,
with explicit fuel (one unit per scanned position) so the function is
structurally recursive.  Models Python `str.replace(pat, "")`. -/
def removeOccsAux (pat : List Char) : Nat → List Char → List Char
  | 0, _ => []
  | _ + 1, [] => []
  | fuel + 1, c :: cs =>
    if matchesAt pat (c :: cs) then removeOccsAux pat fuel ((c :: cs).drop pat.length)
    else c :: removeOccsAux pat fuel cs

/-- Model of Python `s.replace(pat, "")`: delete every occurrence of `pat`
from `s`, scanning left to right. -/
def pyReplaceEmpty (s pat : String) : String :=
  String.mk (removeOccsAux pat.data s.data.length s.data)

/-- Spec-side helper, from the claim wording only: the base name with its
trailing `.json` extension removed (and nothing else). -/
def stripJsonExt (s : String) : String :=
  if 5 ≤ s.data.length ∧ s.data.drop (s.data.length - 5) = ".json".data
  then String.mk (s.data.take (s.data.length - 5)) else s

namespace ZKBot

/-- Embedding of `zkbot_controller/models.py` `Step`: one declarative motion
step.  `x`, `y`, `z`, `do0` use `Option` for Python `None`; `f` defaults to
`DEFAULT_FEED = 20.0` and `delay` to `DEFAULT_DELAY = 0.5` from config. -/
structure Step where
  cmd : String := "G01"
  x : Option Rat := none
  y : Option Rat := none
  z : Option Rat := none
  f : Rat := 20
  delay : Rat := 1/2
  do0 : Option Rat := none
deriving DecidableEq

instance : Inhabited Step := ⟨{}⟩

/-- Embedding of `zkbot_controller/models.py` `Program`:
a named ordered list of steps. -/
structure Program where
  name : String := "unnamed"
  steps : List Step := []
deriving DecidableEq

/-- Embedding of `serial_comm.build_move`: the `G00`/`G01` move frame, or
`none` when no axis is set.  Mirrors the source line by line: the cmd falls
back to `"G01"` when outside `("G00", "G01")`, axis tokens are appended only
for present axes, the feed token is always appended, the parts are joined
with single spaces, and the result is wrapped in the literal text tokens
`0x550xAA` and `0xAA0x55`. -/
def build_move (s : Step) : Option String :=
  if s.x = none ∧ s.y = none ∧ s.z = none then none
  else
    let cmd := if s.cmd = "G00" ∨ s.cmd = "G01" then s.cmd else "G01"
    let parts := [cmd]
      ++ (match s.x with | some v => ["X" ++ toString v] | none => [])
      ++ (match s.y with | some v => ["Y" ++ toString v] | none => [])
      ++ (match s.z with | some v => ["Z" ++ toString v] | none => [])
      ++ ["F" ++ toString s.f]
    some ("0x550xAA " ++ String.intercalate " " parts ++ " 0xAA0x55")

/-- Embedding of `serial_comm.build_do0`: the `G06` actuator frame for the
end-effector angle, or `none` when `do0` is unset. -/
def build_do0 (s : Step) : Option String :=
  match s.do0 with
  | none => none
  | some a => some ("0x550xAA " ++ ("G06 D7 S1 A" ++ toString a) ++ " 0xAA0x55")

/-- The frames `run_program` emits for one step, in emission order: the
actuator frame (when any) strictly before the move frame (when any), as in
the loop body of `serial_comm.run_program`. -/
def framesOf (s : Step) : List String :=
  (build_do0 s).toList ++ (build_move s).toList

/-- Oracle for the external pyserial transport: whether `open_port`
succeeds, and whether the n-th write (counting all frames of the run)
succeeds. -/
structure Transport where
  openOk : Bool
  sendOk : Nat → Bool

/-- Observable actions of one run: the attempted port open, each frame
handed to `send_command`, each per-step sleep, and each port close. -/
inductive Event where
  | openPort
  | send (frame : String)
  | sleep (d : Rat)
  | close

/-- Outcome of a run: completed, open failure (`ConnectionError` tier), or a
send failure at the given 1-based step index. -/
inductive RunResult where
  | completed
  | connectionError
  | sendError (stepIdx : Nat)
deriving DecidableEq

/-- Send a list of frames in order through the transport, threading the
global send counter; a failing send is recorded (the write was attempted on
the wire) and aborts the remainder, as an exception from `send_command`
would.  Returns the new counter, the events, and success. -/
def sendFrames (t : Transport) : Nat → List String → Nat × List Event × Bool
  | n, [] => (n, [], true)
  | n, f :: fs =>
    if t.sendOk n then
      let r := sendFrames t (n + 1) fs
      (r.1, Event.send f :: r.2.1, r.2.2)
    else (n + 1, [Event.send f], false)

/-- The `for i, step in enumerate(prog.steps, start=1)` loop of
`run_program`: for each step send the actuator frame then the move frame,
then sleep the step's delay; a raised send error aborts the loop carrying
the failing 1-based step index. -/
def runSteps (t : Transport) : Nat → Nat → List Step → List Event × Option Nat
  | _, _, [] => ([], none)
  | n, i, s :: rest =>
    let r := sendFrames t n (framesOf s)
    if r.2.2 then
      let r2 := runSteps t r.1 (i + 1) rest
      (r.2.1 ++ Event.sleep s.delay :: r2.1, r2.2)
    else (r.2.1, some i)

/-- Embedding of `serial_comm.run_program`: open the port (an open failure
propagates before the `try` block, so nothing is sent and `close` is never
reached), run the steps, and close exactly once in the `finally` block on
both the completed and the aborted path. -/
def run_program (t : Transport) (p : Program) : RunResult × List Event :=
  if t.openOk then
    let r := runSteps t 0 1 p.steps
    match r.2 with
    | none => (RunResult.completed, Event.openPort :: r.1 ++ [Event.close])
    | some i => (RunResult.sendError i, Event.openPort :: r.1 ++ [Event.close])
  else (RunResult.connectionError, [Event.openPort])

/-- The frames carried by the send events of a trace, in order. -/
def sentList : List Event → List String
  | [] => []
  | Event.send f :: es => f :: sentList es
  | Event.openPort :: es => sentList es
  | Event.sleep _ :: es => sentList es
  | Event.close :: es => sentList es

/-- Number of close events in a trace. -/
def closeCount : List Event → Nat
  | [] => 0
  | Event.close :: es => closeCount es + 1
  | Event.openPort :: es => closeCount es
  | Event.send _ :: es => closeCount es
  | Event.sleep _ :: es => closeCount es

/-- Spec-side accounting: the frames actually transmitted when frames `fs`
are attempted in order starting at send counter `n` — every frame up to and
including the first failing one, and nothing after it. -/
def sentUpTo (ok : Nat → Bool) : Nat → List String → List String
  | _, [] => []
  | n, f :: fs => if ok n then f :: sentUpTo ok (n + 1) fs else [f]

/-- Spec-side accounting: whether every send in `fs` succeeds starting at
counter `n`. -/
def allSendsOk (ok : Nat → Bool) : Nat → List String → Bool
  | _, [] => true
  | n, _ :: fs => ok n && allSendsOk ok (n + 1) fs

/-- Spec-side rendering of the claim's move-frame body
`[X<val>] [Y<val>] [Z<val>]`: one axis token per present axis, none for an
absent axis. -/
def specAxisTokens (s : Step) : List String :=
  (match s.x with | some v => ["X" ++ toString v] | none => [])
    ++ (match s.y with | some v => ["Y" ++ toString v] | none => [])
    ++ (match s.z with | some v => ["Z" ++ toString v] | none => [])

/-- Error value for a sub-program that cannot be located or parsed
(the spec's `ProgramNotFoundError` tier; the source lets the underlying
`FileNotFoundError` / JSON parse error propagate from `Program.load`). -/
structure ProgramNotFoundError where
  path : String
deriving DecidableEq

/-- The composition step of `drink_runner.make_drink`: a fresh Program named
`drink_<key>` whose step list is built by extending an initially empty list
with the origin, pick-cup and juice steps in that order. -/
def make_drink_compose (key : String) (origin common juice : Program) : Program :=
  { name := "drink_" ++ key,
    steps := ([] ++ origin.steps) ++ common.steps ++ juice.steps }

/-- Embedding of `drink_runner.make_drink`: the three `Program.load` calls
run first, in order, each able to fail (modelled by the three `Except`
arguments supplied by the file environment); a load failure propagates
immediately, before any composition and before the transport is touched, so
the event trace is empty.  Only when all three resolve is the composite
built and run. -/
def make_drink (lo lc lj : Except ProgramNotFoundError Program)
    (t : Transport) (key : String) :
    Except ProgramNotFoundError RunResult × List Event :=
  match lo with
  | .error e => (.error e, [])
  | .ok o =>
    match lc with
    | .error e => (.error e, [])
    | .ok c =>
      match lj with
      | .error e => (.error e, [])
      | .ok j =>
        let r := run_program t (make_drink_compose key o c j)
        (.ok r.1, r.2)

/-- Embedding of `models.Step.to_dict` (via `dataclasses.asdict`), at the
JSON document level: every field is written, absent optionals as `null`. -/
def Step.to_dict (s : Step) : JValue :=
  .obj [("cmd", .str s.cmd),
        ("x", match s.x with | some v => .num v | none => .null),
        ("y", match s.y with | some v => .num v | none => .null),
        ("z", match s.z with | some v => .num v | none => .null),
        ("f", .num s.f),
        ("delay", .num s.delay),
        ("do0", match s.do0 with | some v => .num v | none => .null)]

/-- Read an optional numeric field the way `data.get(k)` feeds an
`Optional[float]` field: a missing key or an explicit `null` is `None`;
ints are accepted as numbers; any other shape is a type mismatch that the
typed embedding rejects. -/
def jgetOptRat (fs : List (String × JValue)) (k : String) : Option (Option Rat) :=
  match jlookup fs k with
  | none => some none
  | some .null => some none
  | some (.num q) => some (some q)
  | some (.int n) => some (some (n : Rat))
  | some _ => none

/-- Read a required numeric field with default, as `data.get(k, d)`. -/
def jgetRatD (fs : List (String × JValue)) (k : String) (d : Rat) : Option Rat :=
  match jlookup fs k with
  | none => some d
  | some (.num q) => some q
  | some (.int n) => some (n : Rat)
  | some _ => none

/-- Read a string field with default, as `data.get(k, d)`. -/
def jgetStrD (fs : List (String × JValue)) (k d : String) : Option String :=
  match jlookup fs k with
  | none => some d
  | some (.str s) => some s
  | some _ => none

/-- Embedding of `models.Step.from_dict`: each field via `data.get` with
the source's defaults. -/
def Step.from_dict (j : JValue) : Option Step :=
  match j with
  | .obj fs => do
    let cmd ← jgetStrD fs "cmd" "G01"
    let x ← jgetOptRat fs "x"
    let y ← jgetOptRat fs "y"
    let z ← jgetOptRat fs "z"
    let f ← jgetRatD fs "f" 20
    let d ← jgetRatD fs "delay" (1/2)
    let a ← jgetOptRat fs "do0"
    some { cmd := cmd, x := x, y := y, z := z, f := f, delay := d, do0 := a }
  | _ => none

/-- Transport fixture: open succeeds and exactly the first send succeeds. -/
def tFailSecond : Transport := ⟨true, fun n => n == 0⟩

/-- Program fixture: three steps, one move frame each. -/
def progThree : Program :=
  { name := "p", steps := [{ x := some 1 }, { x := some 2 }, { x := some 3 }] }

/-- Embedding of `models.Program.to_dict`: the document `Program.save`
writes through `json.dump`. -/
def Program.to_dict (p : Program) : JValue :=
  .obj [("name", .str p.name), ("steps", .arr (p.steps.map Step.to_dict))]

/-- Embedding of `models.Program.from_dict`: the parse `Program.load`
applies to the document read by `json.load`; `name` defaults to
`"unnamed"`, missing `"steps"` to the empty list. -/
def Program.from_dict (j : JValue) : Option Program :=
  match j with
  | .obj fs => do
    let nm ← jgetStrD fs "name" "unnamed"
    let xs ← (match jlookup fs "steps" with
              | none => some []
              | some (.arr xs) => some xs
              | some _ => none)
    let ss ← xs.mapM Step.from_dict
    some { name := nm, steps := ss }
  | _ => none

end ZKBot

namespace Enhanced

/-- Embedding of `enhanced_models.Step`: all fields concrete (no optionals),
with the source's dataclass defaults. -/
structure Step where
  cmd : String := "G01"
  X : Rat := 0
  Y : Rat := 0
  Z : Rat := 0
  F : Rat := 20
  delay : Rat := 1/2
  DO0 : Int := 90
deriving DecidableEq

/-- Embedding of `enhanced_models.Step.validate`, clause for clause. -/
def Step.validate (s : Step) : Bool :=
  if ¬ (s.cmd = "G00" ∨ s.cmd = "G01") then false
  else if ¬ (-200 ≤ s.X ∧ s.X ≤ 200 ∧ -200 ≤ s.Y ∧ s.Y ≤ 200) then false
  else if ¬ (-50 ≤ s.Z ∧ s.Z ≤ 250) then false
  else if ¬ (0 ≤ s.DO0 ∧ s.DO0 ≤ 180) then false
  else if s.F ≤ 0 then false
  else true

/-- The field names of the `Step` dataclass; `cls(**data)` accepts exactly
keyword arguments drawn from these. -/
def stepKeys : List String := ["cmd", "X", "Y", "Z", "F", "delay", "DO0"]

/-- Embedding of `enhanced_models.Step.to_dict` (`dataclasses.asdict`). -/
def Step.to_dict (s : Step) : JValue :=
  .obj [("cmd", .str s.cmd), ("X", .num s.X), ("Y", .num s.Y), ("Z", .num s.Z),
        ("F", .num s.F), ("delay", .num s.delay), ("DO0", .int s.DO0)]

/-- Embedding of `enhanced_models.Step.from_dict`, i.e. `cls(**data)`: a key
outside the field names raises (rejected here), a missing key takes the
dataclass default. -/
def Step.from_dict (j : JValue) : Option Step :=
  match j with
  | .obj fs =>
    if fs.all (fun kv => stepKeys.contains kv.1) then do
      let cmd ← ZKBot.jgetStrD fs "cmd" "G01"
      let x ← ZKBot.jgetRatD fs "X" 0
      let y ← ZKBot.jgetRatD fs "Y" 0
      let z ← ZKBot.jgetRatD fs "Z" 0
      let f ← ZKBot.jgetRatD fs "F" 20
      let d ← ZKBot.jgetRatD fs "delay" (1/2)
      let a ← (match jlookup fs "DO0" with
               | none => some 90
               | some (.int n) => some n
               | some _ => none)
      some { cmd := cmd, X := x, Y := y, Z := z, F := f, delay := d, DO0 := a }
    else none
  | _ => none

/-- Embedding of `enhanced_models.Program` (the metadata-bearing model). -/
structure Program where
  name : String := "Untitled"
  description : String := ""
  steps : List Step := []
  version : String := "1.0"
  created_at : String := ""
  modified_at : String := ""
deriving DecidableEq

/-- Python `list.insert` index semantics: negative indices count from the
end, out-of-range indices clamp. -/
def pyInsertIdx {α : Type} (l : List α) (i : Int) (a : α) : List α :=
  let n : Int := l.length
  let j : Int := if i < 0 then (if i + n < 0 then 0 else i + n)
                 else (if n < i then n else i)
  l.take j.toNat ++ a :: l.drop j.toNat

/-- Embedding of `enhanced_models.Program.add_step`: append when the step
validates and stamp `modified_at`; otherwise raise `ValueError` leaving the
program untouched. -/
def Program.add_step (p : Program) (s : Step) (now : String) :
    Except String Program :=
  if s.validate then
    .ok { p with steps := p.steps ++ [s], modified_at := now }
  else .error "Invalid step parameters"

/-- Embedding of `enhanced_models.Program.insert_step`. -/
def Program.insert_step (p : Program) (i : Int) (s : Step) (now : String) :
    Except String Program :=
  if s.validate then
    .ok { p with steps := pyInsertIdx p.steps i s, modified_at := now }
  else .error "Invalid step parameters"

/-- Embedding of `enhanced_models.Program.remove_step`: pop and stamp when
the index is in range, silently do nothing otherwise. -/
def Program.remove_step (p : Program) (i : Int) (now : String) : Program :=
  if 0 ≤ i ∧ i < (p.steps.length : Int) then
    { p with steps := p.steps.eraseIdx i.toNat, modified_at := now }
  else p

/-- Embedding of `enhanced_models.Program.update_step`: replace and stamp
when the index is in range and the step validates, silently do nothing
otherwise. -/
def Program.update_step (p : Program) (i : Int) (s : Step) (now : String) :
    Program :=
  if (0 ≤ i ∧ i < (p.steps.length : Int)) ∧ s.validate then
    { p with steps := p.steps.set i.toNat s, modified_at := now }
  else p

/-- Embedding of `enhanced_models.Program.save`: refresh `modified_at` to
the current time and write the metadata wrapper document. -/
def Program.save (p : Program) (now : String) : JValue :=
  .obj [("name", .str p.name), ("description", .str p.description),
        ("version", .str p.version), ("created_at", .str p.created_at),
        ("modified_at", .str now),
        ("steps", .arr (p.steps.map Step.to_dict))]

/-- Embedding of `enhanced_models.Program.load`, on the document read by
`json.load`; `basename` is `os.path.basename(filepath)` and `now` the
timestamp the `datetime.now()` defaults would produce.  A bare array is the
legacy format: its name is the basename with `.json` removed by
`str.replace` and all other metadata takes the dataclass defaults. -/
def Program.load (basename : String) (now : String) (j : JValue) :
    Option Program :=
  match j with
  | .arr items => do
    let ss ← items.mapM Step.from_dict
    some { name := pyReplaceEmpty basename ".json", description := "",
           steps := ss, version := "1.0", created_at := now,
           modified_at := now }
  | .obj fs => do
    let xs ← (match jlookup fs "steps" with
              | none => some []
              | some (.arr xs) => some xs
              | some _ => none)
    let ss ← xs.mapM Step.from_dict
    let nm ← ZKBot.jgetStrD fs "name" "Untitled"
    let ds ← ZKBot.jgetStrD fs "description" ""
    let vr ← ZKBot.jgetStrD fs "version" "1.0"
    let ca ← ZKBot.jgetStrD fs "created_at" now
    let ma ← ZKBot.jgetStrD fs "modified_at" now
    some { name := nm, description := ds, steps := ss, version := vr,
           created_at := ca, modified_at := ma }
  | _ => none

end Enhanced

end JuiceKiosk

namespace JuiceKiosk
namespace ZKBot

/-- C2: for every Step with at least one of x, y, z present, `build_move`
produces exactly one move frame of the textual form
`0x550xAA <G00|G01> [X<val>] [Y<val>] [Z<val>] F<val> 0xAA0x55`: an axis
token appears iff that axis is set on the Step, the feed token F is always
present, tokens are single-space separated, and the literal preamble and
postamble wrap the body. -/
theorem build_move_format (s : Step) (h : s.x ≠ none ∨ s.y ≠ none ∨ s.z ≠ none) :
    ∃ c, (c = "G00" ∨ c = "G01") ∧
      build_move s = some ("0x550xAA " ++
        String.intercalate " " (c :: (specAxisTokens s ++ ["F" ++ toString s.f])) ++
        " 0xAA0x55") := by
  have hcond : ¬ (s.x = none ∧ s.y = none ∧ s.z = none) := by tauto
  by_cases hc : s.cmd = "G00" ∨ s.cmd = "G01"
  · exact ⟨s.cmd, hc, by
      simp [build_move, hcond, hc, specAxisTokens, List.append_assoc]⟩
  · exact ⟨"G01", Or.inr rfl, by
      simp [build_move, hcond, hc, specAxisTokens, List.append_assoc]⟩

/-- Witness for C2 at a concrete Step with x and z set and y absent. -/
theorem build_move_format_witness :
    ((({ cmd := "G01", x := some 10, z := some 5 } : Step)).x ≠ none ∨
      (({ cmd := "G01", x := some 10, z := some 5 } : Step)).y ≠ none ∨
      (({ cmd := "G01", x := some 10, z := some 5 } : Step)).z ≠ none) ∧
    (∃ c, (c = "G00" ∨ c = "G01") ∧
      build_move ({ cmd := "G01", x := some 10, z := some 5 } : Step) =
        some ("0x550xAA " ++ String.intercalate " "
          (c :: (specAxisTokens ({ cmd := "G01", x := some 10, z := some 5 } : Step) ++
            ["F" ++ toString (({ cmd := "G01", x := some 10, z := some 5 } : Step)).f])) ++
          " 0xAA0x55")) :=
  ⟨by decide, build_move_format _ (by decide)⟩

/-- C3: every Step yields at most two frames; when `do0` is present, an
actuator frame with body exactly `G06 D7 S1 A<angle>` is produced and is
placed before any move frame of the same step, and a Step with both an
angle and at least one coordinate yields exactly two frames, actuator
frame first. -/
theorem do0_frame_order (s : Step) :
    (framesOf s).length ≤ 2 ∧
    (∀ a, s.do0 = some a →
      framesOf s = ("0x550xAA " ++ ("G06 D7 S1 A" ++ toString a) ++ " 0xAA0x55") ::
        (build_move s).toList) ∧
    (∀ a, s.do0 = some a → (s.x ≠ none ∨ s.y ≠ none ∨ s.z ≠ none) →
      (framesOf s).length = 2) := by
  refine ⟨?_, ?_, ?_⟩
  · have h1 : ∀ (o : Option String), o.toList.length ≤ 1 := by rintro (_ | _) <;> simp
    calc (framesOf s).length = (build_do0 s).toList.length + (build_move s).toList.length := by
          simp [framesOf]
      _ ≤ 1 + 1 := Nat.add_le_add (h1 _) (h1 _)
  · intro a ha
    simp [framesOf, build_do0, ha]
  · intro a ha hxyz
    have hcond : ¬ (s.x = none ∧ s.y = none ∧ s.z = none) := by tauto
    simp [framesOf, build_do0, ha, build_move, hcond]

/-- Witness for C3 at a concrete Step with both an angle and an x
coordinate. -/
theorem do0_frame_order_witness :
    (({ do0 := some 90, x := some 1 } : Step)).do0 = some 90 ∧
    ((({ do0 := some 90, x := some 1 } : Step)).x ≠ none ∨
      (({ do0 := some 90, x := some 1 } : Step)).y ≠ none ∨
      (({ do0 := some 90, x := some 1 } : Step)).z ≠ none) ∧
    (framesOf ({ do0 := some 90, x := some 1 } : Step)).length = 2 :=
  ⟨rfl, by decide, (do0_frame_order _).2.2 90 rfl (by decide)⟩

/-- C4: a Step whose x, y, z and do0 are all absent emits zero frames (no
wire traffic), yet the runner still performs the sleep for that step's
delay before advancing to the rest of the program. -/
theorem empty_step_only_sleeps (s : Step) (hx : s.x = none) (hy : s.y = none)
    (hz : s.z = none) (ha : s.do0 = none) :
    framesOf s = [] ∧
    ∀ (t : Transport) (n i : Nat) (rest : List Step),
      runSteps t n i (s :: rest) =
        (Event.sleep s.delay :: (runSteps t n (i + 1) rest).1,
          (runSteps t n (i + 1) rest).2) := by
  have hf : framesOf s = [] := by simp [framesOf, build_do0, build_move, hx, hy, hz, ha]
  refine ⟨hf, ?_⟩
  intro t n i rest
  simp [runSteps, hf, sendFrames]

/-- Witness for C4 at the all-defaults (all-absent) Step. -/
theorem empty_step_only_sleeps_witness :
    ((({} : Step)).x = none ∧ (({} : Step)).y = none ∧ (({} : Step)).z = none ∧
      (({} : Step)).do0 = none) ∧
    runSteps ⟨true, fun _ => true⟩ 0 1 [({} : Step)] =
      (Event.sleep (({} : Step)).delay ::
        (runSteps ⟨true, fun _ => true⟩ 0 2 []).1,
        (runSteps ⟨true, fun _ => true⟩ 0 2 []).2) :=
  ⟨by decide,
    (empty_step_only_sleeps ({} : Step) rfl rfl rfl rfl).2 ⟨true, fun _ => true⟩ 0 1 []⟩

/-- C10: when at least one coordinate is present and cmd is neither "G00"
nor "G01", `build_move` does not reject the Step or fail: it silently
substitutes "G01" as the command token of the emitted frame. -/
theorem fallback_cmd_is_G01 (s : Step) (h : s.x ≠ none ∨ s.y ≠ none ∨ s.z ≠ none)
    (h0 : s.cmd ≠ "G00") (h1 : s.cmd ≠ "G01") :
    build_move s = some ("0x550xAA " ++
      String.intercalate " " ("G01" :: (specAxisTokens s ++ ["F" ++ toString s.f])) ++
      " 0xAA0x55") := by
  have hcond : ¬ (s.x = none ∧ s.y = none ∧ s.z = none) := by tauto
  have hc : ¬ (s.cmd = "G00" ∨ s.cmd = "G01") := by tauto
  simp [build_move, hcond, hc, specAxisTokens, List.append_assoc]

/-- Witness for C10 at a concrete Step with cmd "G99". -/
theorem fallback_cmd_is_G01_witness :
    ((({ cmd := "G99", x := some 10 } : Step)).x ≠ none ∨
      (({ cmd := "G99", x := some 10 } : Step)).y ≠ none ∨
      (({ cmd := "G99", x := some 10 } : Step)).z ≠ none) ∧
    (({ cmd := "G99", x := some 10 } : Step)).cmd ≠ "G00" ∧
    (({ cmd := "G99", x := some 10 } : Step)).cmd ≠ "G01" ∧
    build_move ({ cmd := "G99", x := some 10 } : Step) =
      some ("0x550xAA " ++ String.intercalate " "
        ("G01" :: (specAxisTokens ({ cmd := "G99", x := some 10 } : Step) ++
          ["F" ++ toString (({ cmd := "G99", x := some 10 } : Step)).f])) ++
        " 0xAA0x55") :=
  ⟨by decide, by decide, by decide,
    fallback_cmd_is_G01 _ (by decide) (by decide) (by decide)⟩

end ZKBot
end JuiceKiosk

namespace JuiceKiosk
namespace ZKBot

/-- C5: the composed drink program's step count equals the sum of the
three sub-programs' step counts; its steps are, in order, origin's steps,
then the shared pick-cup steps, then the juice-specific steps, each
segment preserving its internal order; the composite is a fresh Program
value assembled functionally, leaving the sub-programs untouched. -/
theorem compose_order (key : String) (o c j : Program) :
    (make_drink_compose key o c j).steps.length =
      o.steps.length + c.steps.length + j.steps.length ∧
    (make_drink_compose key o c j).steps = o.steps ++ c.steps ++ j.steps ∧
    (make_drink_compose key o c j).steps.take o.steps.length = o.steps ∧
    ((make_drink_compose key o c j).steps.drop o.steps.length).take c.steps.length
      = c.steps ∧
    (make_drink_compose key o c j).steps.drop (o.steps.length + c.steps.length)
      = j.steps ∧
    (make_drink_compose key o c j).name = "drink_" ++ key := by
  refine ⟨?_, ?_, ?_, ?_, ?_, rfl⟩
  · simp [make_drink_compose, Nat.add_assoc]
  · simp [make_drink_compose]
  · show (([] ++ o.steps) ++ c.steps ++ j.steps).take o.steps.length = o.steps
    rw [List.nil_append, List.append_assoc, List.take_left]
  · show ((([] ++ o.steps) ++ c.steps ++ j.steps).drop o.steps.length).take
        c.steps.length = c.steps
    rw [List.nil_append, List.append_assoc, List.drop_left, List.take_left]
  · show (([] ++ o.steps) ++ c.steps ++ j.steps).drop
        (o.steps.length + c.steps.length) = j.steps
    rw [List.nil_append, ← List.length_append,
      show o.steps ++ c.steps ++ j.steps = (o.steps ++ c.steps) ++ j.steps from rfl,
      List.drop_left]

/-- C6: if any of the three required sub-programs fails to load, the
composer fails with that error and the event trace is empty — the
transport is never opened, no frame is sent, and no partial assembly is
attempted; composition happens only after all three loads resolve. -/
theorem load_failure_aborts (lo lc lj : Except ProgramNotFoundError Program)
    (t : Transport) (key : String) :
    (∀ e, lo = .error e → make_drink lo lc lj t key = (.error e, [])) ∧
    (∀ e o, lo = .ok o → lc = .error e → make_drink lo lc lj t key = (.error e, [])) ∧
    (∀ e o c, lo = .ok o → lc = .ok c → lj = .error e →
      make_drink lo lc lj t key = (.error e, [])) := by
  refine ⟨?_, ?_, ?_⟩
  · intro e he; subst he; rfl
  · intro e o ho he; subst ho; subst he; rfl
  · intro e o c ho hc he; subst ho; subst hc; subst he; rfl

/-- Witness for C6 with a failing juice-program load. -/
theorem load_failure_aborts_witness :
    make_drink (.error ⟨"programs/juices/mango.json"⟩) (.ok {}) (.ok {})
        ⟨true, fun _ => true⟩ "mango" =
      (.error ⟨"programs/juices/mango.json"⟩, []) :=
  (load_failure_aborts _ _ _ _ _).1 ⟨"programs/juices/mango.json"⟩ rfl

end ZKBot
end JuiceKiosk

namespace JuiceKiosk
namespace ZKBot

theorem sentList_append (xs ys : List Event) :
    sentList (xs ++ ys) = sentList xs ++ sentList ys := by
  induction xs with
  | nil => rfl
  | cons e es ih => cases e <;> simp [sentList, ih]

theorem closeCount_append (xs ys : List Event) :
    closeCount (xs ++ ys) = closeCount xs + closeCount ys := by
  induction xs with
  | nil => simp [closeCount]
  | cons e es ih => cases e <;> simp [closeCount, ih] <;> omega

theorem allSendsOk_append (ok : Nat → Bool) (fs gs : List String) : ∀ n,
    allSendsOk ok n (fs ++ gs) =
      (allSendsOk ok n fs && allSendsOk ok (n + fs.length) gs) := by
  induction fs with
  | nil => intro n; simp [allSendsOk]
  | cons f fs ih =>
    intro n
    simp only [List.cons_append, allSendsOk, List.length_cons, List.append_eq]
    rw [ih (n + 1), show n + (fs.length + 1) = n + 1 + fs.length by omega,
      Bool.and_assoc]

theorem sentUpTo_of_allOk (ok : Nat → Bool) (fs : List String) : ∀ n,
    allSendsOk ok n fs = true → sentUpTo ok n fs = fs := by
  induction fs with
  | nil => intro n _; rfl
  | cons f fs ih =>
    intro n h
    simp only [allSendsOk, Bool.and_eq_true] at h
    simp [sentUpTo, h.1, ih (n + 1) h.2]

theorem sentUpTo_append (ok : Nat → Bool) (fs gs : List String) : ∀ n,
    sentUpTo ok n (fs ++ gs) =
      if allSendsOk ok n fs then fs ++ sentUpTo ok (n + fs.length) gs
      else sentUpTo ok n fs := by
  induction fs with
  | nil => intro n; simp [allSendsOk, sentUpTo]
  | cons f fs ih =>
    intro n
    by_cases h : ok n
    · simp only [List.cons_append, sentUpTo, h, if_true, allSendsOk,
        List.length_cons, Bool.true_and, List.append_eq]
      rw [ih (n + 1)]
      by_cases h2 : allSendsOk ok (n + 1) fs
      · simp [h2, show n + (fs.length + 1) = n + 1 + fs.length by omega]
      · simp [h2, sentUpTo, h]
    · simp [sentUpTo, h, allSendsOk]

theorem sendFrames_spec (t : Transport) (fs : List String) : ∀ n,
    sentList (sendFrames t n fs).2.1 = sentUpTo t.sendOk n fs ∧
    closeCount (sendFrames t n fs).2.1 = 0 ∧
    (sendFrames t n fs).2.2 = allSendsOk t.sendOk n fs ∧
    (allSendsOk t.sendOk n fs = true → (sendFrames t n fs).1 = n + fs.length) := by
  induction fs with
  | nil => intro n; simp [sendFrames, sentUpTo, allSendsOk, sentList, closeCount]
  | cons f fs ih =>
    intro n
    by_cases h : t.sendOk n
    · obtain ⟨ih1, ih2, ih3, ih4⟩ := ih (n + 1)
      refine ⟨?_, ?_, ?_, ?_⟩
      · simp [sendFrames, h, sentUpTo, sentList, ih1]
      · simp [sendFrames, h, closeCount, ih2]
      · simp [sendFrames, h, allSendsOk, ih3]
      · intro hall
        simp only [allSendsOk, Bool.and_eq_true] at hall
        simp only [sendFrames, h, if_true]
        rw [ih4 hall.2]
        simp; omega
    · refine ⟨?_, ?_, ?_, ?_⟩
      · simp [sendFrames, h, sentUpTo, sentList]
      · simp [sendFrames, h, closeCount]
      · simp [sendFrames, h, allSendsOk]
      · intro hall
        simp only [allSendsOk, Bool.and_eq_true] at hall
        exact absurd hall.1 (by simpa using h)

end ZKBot
end JuiceKiosk

namespace JuiceKiosk
namespace ZKBot

theorem runSteps_spec (t : Transport) (steps : List Step) : ∀ n i,
    sentList (runSteps t n i steps).1 =
      sentUpTo t.sendOk n (steps.flatMap framesOf) ∧
    closeCount (runSteps t n i steps).1 = 0 ∧
    ((runSteps t n i steps).2 = none ↔
      allSendsOk t.sendOk n (steps.flatMap framesOf) = true) ∧
    (∀ k, (runSteps t n i steps).2 = some k →
      i ≤ k ∧ k < i + steps.length ∧
      sentList (runSteps t n i steps).1 =
        ((steps.take (k - i)).flatMap framesOf) ++
          sentUpTo t.sendOk (n + ((steps.take (k - i)).flatMap framesOf).length)
            (framesOf (steps.getD (k - i) default))) := by
  induction steps with
  | nil =>
    intro n i
    refine ⟨rfl, rfl, by simp [runSteps, allSendsOk], ?_⟩
    intro k hk
    simp [runSteps] at hk
  | cons s rest ih =>
    intro n i
    obtain ⟨hs1, hs2, hs3, hs4⟩ := sendFrames_spec t (framesOf s) n
    by_cases hok : allSendsOk t.sendOk n (framesOf s)
    · -- every frame of this step goes through
      have hrun : runSteps t n i (s :: rest) =
          ((sendFrames t n (framesOf s)).2.1 ++
            Event.sleep s.delay ::
              (runSteps t (n + (framesOf s).length) (i + 1) rest).1,
            (runSteps t (n + (framesOf s).length) (i + 1) rest).2) := by
        simp only [runSteps, hs3, hok, if_true, hs4 hok]
      have hfst : (runSteps t n i (s :: rest)).1 =
          (sendFrames t n (framesOf s)).2.1 ++
            Event.sleep s.delay ::
              (runSteps t (n + (framesOf s).length) (i + 1) rest).1 := by
        rw [hrun]
      have hsnd : (runSteps t n i (s :: rest)).2 =
          (runSteps t (n + (framesOf s).length) (i + 1) rest).2 := by
        rw [hrun]
      obtain ⟨ih1, ih2, ih3, ih4⟩ := ih (n + (framesOf s).length) (i + 1)
      have hsl : sentList (runSteps t n i (s :: rest)).1 =
          framesOf s ++
            sentList (runSteps t (n + (framesOf s).length) (i + 1) rest).1 := by
        rw [hfst]
        simp only [sentList_append, hs1,
          sentUpTo_of_allOk t.sendOk (framesOf s) n hok, sentList]
      refine ⟨?_, ?_, ?_, ?_⟩
      · rw [hsl, ih1, List.flatMap_cons, sentUpTo_append, if_pos hok]
      · rw [hfst]
        simp [closeCount_append, closeCount, hs2, ih2]
      · rw [hsnd, ih3, List.flatMap_cons, allSendsOk_append, hok, Bool.true_and]
      · intro k hk
        rw [hsnd] at hk
        obtain ⟨hk1, hk2, hk3⟩ := ih4 k hk
        have hj : k - i = (k - (i + 1)) + 1 := by omega
        refine ⟨by omega, by simp only [List.length_cons]; omega, ?_⟩
        rw [hsl, hk3, hj, List.take_succ_cons, List.flatMap_cons,
          List.getD_cons_succ, List.length_append, ← List.append_assoc,
          ← Nat.add_assoc]
    · -- some frame of this step fails: the loop aborts at index i
      have hok' : (sendFrames t n (framesOf s)).2.2 = false := by
        rw [hs3]; exact Bool.eq_false_iff.mpr hok
      have hrun : runSteps t n i (s :: rest) =
          ((sendFrames t n (framesOf s)).2.1, some i) := by
        simp only [runSteps, hok', Bool.false_eq_true, if_false]
      have hfst : (runSteps t n i (s :: rest)).1 =
          (sendFrames t n (framesOf s)).2.1 := by rw [hrun]
      have hsnd : (runSteps t n i (s :: rest)).2 = some i := by rw [hrun]
      refine ⟨?_, ?_, ?_, ?_⟩
      · rw [hfst, hs1, List.flatMap_cons, sentUpTo_append, if_neg hok]
      · rw [hfst, hs2]
      · rw [hsnd, List.flatMap_cons, allSendsOk_append]
        simp [hok]
      · intro k hk
        rw [hsnd] at hk
        injection hk with hk
        subst hk
        refine ⟨Nat.le_refl i, by simp only [List.length_cons]; omega, ?_⟩
        simp only [Nat.sub_self, List.take_zero, List.flatMap_nil,
          List.nil_append, List.length_nil, Nat.add_zero, List.getD_cons_zero]
        rw [hfst, hs1]

end ZKBot
end JuiceKiosk

namespace JuiceKiosk
namespace ZKBot

/-- C1: `run_program` opens the transport once and executes steps strictly
in list order.  If open fails, the result is the connection error, no
frame is sent and close is never invoked.  If open succeeds, close is
invoked exactly once (on the completed and the aborted path alike), the
frames sent are exactly the program's frames up to and including the
first failing send, the run completes iff every send succeeds, and a
send failure at step k means steps 1..k-1 were fully sent plus the part
of step k through the failing frame, with no later step attempted. -/
theorem run_program_scoped_resource (t : Transport) (p : Program) :
    (t.openOk = false →
      run_program t p = (RunResult.connectionError, [Event.openPort]) ∧
      sentList (run_program t p).2 = [] ∧
      closeCount (run_program t p).2 = 0) ∧
    (t.openOk = true →
      closeCount (run_program t p).2 = 1 ∧
      sentList (run_program t p).2 =
        sentUpTo t.sendOk 0 (p.steps.flatMap framesOf) ∧
      ((run_program t p).1 = RunResult.completed ↔
        allSendsOk t.sendOk 0 (p.steps.flatMap framesOf) = true) ∧
      (∀ k, (run_program t p).1 = RunResult.sendError k →
        1 ≤ k ∧ k ≤ p.steps.length ∧
        sentList (run_program t p).2 =
          ((p.steps.take (k - 1)).flatMap framesOf) ++
            sentUpTo t.sendOk ((p.steps.take (k - 1)).flatMap framesOf).length
              (framesOf (p.steps.getD (k - 1) default)))) := by
  constructor
  · intro h
    refine ⟨?_, ?_, ?_⟩ <;> simp [run_program, h, sentList, closeCount]
  · intro h
    obtain ⟨r1, r2, r3, r4⟩ := runSteps_spec t p.steps 0 1
    rcases hR : (runSteps t 0 1 p.steps).2 with _ | idx
    · have hrp : run_program t p =
          (RunResult.completed,
            Event.openPort :: (runSteps t 0 1 p.steps).1 ++ [Event.close]) := by
        simp only [run_program, h, if_true, hR]
      refine ⟨?_, ?_, ?_, ?_⟩
      · rw [hrp]
        simp [closeCount, closeCount_append, r2]
      · rw [hrp]
        simp only [sentList, List.append_eq, sentList_append]
        rw [r1]
        simp [sentList]
      · rw [hrp]
        simp [r3.mp hR]
      · intro k hk
        rw [hrp] at hk
        simp at hk
    · have hrp : run_program t p =
          (RunResult.sendError idx,
            Event.openPort :: (runSteps t 0 1 p.steps).1 ++ [Event.close]) := by
        simp only [run_program, h, if_true, hR]
      have hsl : sentList (run_program t p).2 = sentList (runSteps t 0 1 p.steps).1 := by
        rw [hrp]
        simp only [sentList, List.append_eq, sentList_append]
        simp [sentList]
      refine ⟨?_, ?_, ?_, ?_⟩
      · rw [hrp]
        simp [closeCount, closeCount_append, r2]
      · rw [hsl, r1]
      · rw [hrp]
        constructor
        · intro h'
          simp at h'
        · intro hall
          exact absurd (r3.mpr hall) (by simp [hR])
      · intro k hk
        rw [hrp] at hk
        simp only [Prod.fst] at hk
        injection hk with hk
        subst hk
        obtain ⟨hk1, hk2, hk3⟩ := r4 idx hR
        rw [Nat.zero_add] at hk3
        exact ⟨hk1, by omega, by rw [hsl, hk3]⟩

end ZKBot
end JuiceKiosk

namespace JuiceKiosk
namespace ZKBot

/-- Witness for C1: open succeeds, the second of three frames fails, so
the run fails at step 2, sends exactly two frames, and closes once. -/
theorem run_program_scoped_resource_witness :
    tFailSecond.openOk = true ∧
    closeCount (run_program tFailSecond progThree).2 = 1 ∧
    sentList (run_program tFailSecond progThree).2 =
      sentUpTo tFailSecond.sendOk 0 (progThree.steps.flatMap framesOf) ∧
    (run_program tFailSecond progThree).1 = RunResult.sendError 2 ∧
    (1 ≤ 2 ∧ 2 ≤ progThree.steps.length ∧
      sentList (run_program tFailSecond progThree).2 =
        ((progThree.steps.take 1).flatMap framesOf) ++
          sentUpTo tFailSecond.sendOk
            ((progThree.steps.take 1).flatMap framesOf).length
            (framesOf (progThree.steps.getD 1 default))) :=
  ⟨rfl,
   ((run_program_scoped_resource tFailSecond progThree).2 rfl).1,
   ((run_program_scoped_resource tFailSecond progThree).2 rfl).2.1,
   rfl,
   ((run_program_scoped_resource tFailSecond progThree).2 rfl).2.2.2 2 rfl⟩

end ZKBot
end JuiceKiosk

namespace JuiceKiosk
namespace Enhanced

/-- C7: `Step.validate` accepts exactly cmd in {"G00", "G01"}, X and Y in
[-200, 200], Z in [-50, 250], DO0 in [0, 180] and feed rate > 0; the
step-taking mutators add/insert/update reject an invalid Step leaving the
program's step list unchanged, and every successful mutation (add,
insert, remove, update) refreshes `modified_at`. -/
theorem mutators_validate_and_stamp (p : Program) (s : Step) (i : Int) (now : String) :
    (Step.validate s = true ↔
      ((s.cmd = "G00" ∨ s.cmd = "G01") ∧
        -200 ≤ s.X ∧ s.X ≤ 200 ∧ -200 ≤ s.Y ∧ s.Y ≤ 200 ∧
        -50 ≤ s.Z ∧ s.Z ≤ 250 ∧ 0 ≤ s.DO0 ∧ s.DO0 ≤ 180 ∧ 0 < s.F)) ∧
    (Step.validate s = false →
      p.add_step s now = Except.error "Invalid step parameters" ∧
      p.insert_step i s now = Except.error "Invalid step parameters" ∧
      p.update_step i s now = p) ∧
    (Step.validate s = true →
      (p.add_step s now).map Program.modified_at = Except.ok now ∧
      (p.add_step s now).map Program.steps = Except.ok (p.steps ++ [s]) ∧
      (p.insert_step i s now).map Program.modified_at = Except.ok now) ∧
    (0 ≤ i ∧ i < (p.steps.length : Int) →
      (p.remove_step i now).modified_at = now) ∧
    ((0 ≤ i ∧ i < (p.steps.length : Int)) ∧ Step.validate s = true →
      (p.update_step i s now).modified_at = now) := by
  refine ⟨?_, ?_, ?_, ?_, ?_⟩
  · constructor
    · intro hv
      unfold Step.validate at hv
      split_ifs at hv with h1 h2 h3 h4 h5 <;>
        first
          | exact (Bool.false_ne_true hv).elim
          | exact ⟨h1, h2.1, h2.2.1, h2.2.2.1, h2.2.2.2, h3.1, h3.2, h4.1, h4.2,
              lt_of_not_le h5⟩
    · intro hc
      obtain ⟨hcmd, hx1, hx2, hy1, hy2, hz1, hz2, hd1, hd2, hf⟩ := hc
      unfold Step.validate
      rw [if_neg (not_not_intro hcmd), if_neg (not_not_intro ⟨hx1, hx2, hy1, hy2⟩),
        if_neg (not_not_intro ⟨hz1, hz2⟩), if_neg (not_not_intro ⟨hd1, hd2⟩),
        if_neg (not_le.mpr hf)]
  · intro hv
    refine ⟨?_, ?_, ?_⟩ <;>
      simp [Program.add_step, Program.insert_step, Program.update_step, hv]
  · intro hv
    refine ⟨?_, ?_, ?_⟩ <;>
      simp [Program.add_step, Program.insert_step, hv, Except.map]
  · intro hi
    simp [Program.remove_step, hi]
  · intro hi
    simp [Program.update_step, hi.1, hi.2]

end Enhanced
end JuiceKiosk

namespace JuiceKiosk
namespace Enhanced

/-- Witness for C7: a step with cmd "G02" is rejected by add_step, while a
successful remove and add refresh the timestamp. -/
theorem mutators_validate_and_stamp_witness :
    Step.validate ({ cmd := "G02" } : Step) = false ∧
    Program.add_step { steps := [{}] } ({ cmd := "G02" } : Step) "T1" =
      Except.error "Invalid step parameters" ∧
    (Program.remove_step { steps := [{}] } 0 "T2").modified_at = "T2" ∧
    (Program.add_step { steps := [{}] } ({} : Step) "T3").map Program.modified_at =
      Except.ok "T3" :=
  ⟨by decide,
   ((mutators_validate_and_stamp { steps := [{}] } { cmd := "G02" } 0 "T1").2.1
      (by decide)).1,
   (mutators_validate_and_stamp { steps := [{}] } {} 0 "T2").2.2.2.1 (by decide),
   ((mutators_validate_and_stamp { steps := [{}] } {} 0 "T3").2.2.1 (by decide)).1⟩

theorem step_dict_roundtrip (s : Step) : Step.from_dict (Step.to_dict s) = some s := by
  obtain ⟨c, x, y, z, f, d, a⟩ := s
  rfl

theorem steps_dict_roundtrip (ss : List Step) :
    (ss.map Step.to_dict).mapM Step.from_dict = some ss := by
  induction ss with
  | nil => rfl
  | cons s ss ih =>
    simp only [List.map_cons, List.mapM_cons, step_dict_roundtrip, ih,
      Option.bind_eq_bind, Option.some_bind]
    rfl

end Enhanced
end JuiceKiosk

namespace JuiceKiosk

theorem zk_step_dict_roundtrip (s : ZKBot.Step) :
    ZKBot.Step.from_dict (ZKBot.Step.to_dict s) = some s := by
  obtain ⟨c, x, y, z, f, d, a⟩ := s
  cases x <;> cases y <;> cases z <;> cases a <;> rfl

theorem zk_steps_dict_roundtrip (ss : List ZKBot.Step) :
    (ss.map ZKBot.Step.to_dict).mapM ZKBot.Step.from_dict = some ss := by
  induction ss with
  | nil => rfl
  | cons s ss ih =>
    simp only [List.map_cons, List.mapM_cons, zk_step_dict_roundtrip, ih,
      Option.bind_eq_bind, Option.some_bind]
    rfl

/-- C8: saving a Program and loading the saved document yields a Program
with the identical step sequence and name; description, version and
created_at are also preserved, and among the metadata only modified_at
changes (to the save-time stamp).  The plain model's to_dict/from_dict
document round-trip is exact. -/
theorem save_load_roundtrip (p : Enhanced.Program) (q : ZKBot.Program)
    (basename nowS nowL : String) :
    Enhanced.Program.load basename nowL (Enhanced.Program.save p nowS) =
      some { p with modified_at := nowS } ∧
    ZKBot.Program.from_dict (ZKBot.Program.to_dict q) = some q := by
  constructor
  · have h : Enhanced.Program.load basename nowL (Enhanced.Program.save p nowS) =
        ((p.steps.map Enhanced.Step.to_dict).mapM Enhanced.Step.from_dict).bind
          (fun ss =>
            some ({ name := p.name, description := p.description, steps := ss,
                    version := p.version, created_at := p.created_at,
                    modified_at := nowS } : Enhanced.Program)) := rfl
    rw [h, Enhanced.steps_dict_roundtrip]
    rfl
  · have h : ZKBot.Program.from_dict (ZKBot.Program.to_dict q) =
        ((q.steps.map ZKBot.Step.to_dict).mapM ZKBot.Step.from_dict).bind
          (fun ss => some ({ name := q.name, steps := ss } : ZKBot.Program)) := rfl
    rw [h, zk_steps_dict_roundtrip]
    rfl

end JuiceKiosk

namespace JuiceKiosk

theorem mapM_some_length {α β : Type} (f : α → Option β) :
    ∀ (xs : List α) (ys : List β), xs.mapM f = some ys → ys.length = xs.length := by
  intro xs
  induction xs with
  | nil =>
    intro ys h
    simp only [List.mapM_nil, pure, Option.some.injEq] at h
    subst h
    rfl
  | cons x xs ih =>
    intro ys h
    simp only [List.mapM_cons, Option.bind_eq_bind, Option.pure_def,
      Option.bind_eq_some, Option.some.injEq] at h
    obtain ⟨b, hb, bs, hbs, rfl⟩ := h
    simp [ih bs hbs]

/-- C9 (amended): loading a bare JSON array of step objects yields a
Program containing exactly those steps in order, with synthesized default
metadata and a name obtained from the file's base name by deleting every
occurrence of the substring ".json" (which equals dropping the extension
whenever ".json" occurs only as the extension). -/
theorem legacy_load (basename now : String) (items : List JValue)
    (ss : List Enhanced.Step) (h : items.mapM Enhanced.Step.from_dict = some ss) :
    Enhanced.Program.load basename now (JValue.arr items) =
      some { name := pyReplaceEmpty basename ".json", description := "",
             steps := ss, version := "1.0", created_at := now,
             modified_at := now } ∧
    ss.length = items.length := by
  constructor
  · have hl : Enhanced.Program.load basename now (JValue.arr items) =
        (items.mapM Enhanced.Step.from_dict).bind
          (fun ss' =>
            some ({ name := pyReplaceEmpty basename ".json", description := "",
                    steps := ss', version := "1.0", created_at := now,
                    modified_at := now } : Enhanced.Program)) := rfl
    rw [hl, h]
    rfl
  · exact mapM_some_length Enhanced.Step.from_dict items ss h

/-- Witness for C9 on a three-element legacy array. -/
theorem legacy_load_witness :
    ([JValue.obj [], JValue.obj [("cmd", JValue.str "G00")], JValue.obj []].mapM
        Enhanced.Step.from_dict = some [{}, { cmd := "G00" }, {}]) ∧
    Enhanced.Program.load "pick_cup.json" "T0"
        (JValue.arr [JValue.obj [], JValue.obj [("cmd", JValue.str "G00")],
          JValue.obj []]) =
      some { name := pyReplaceEmpty "pick_cup.json" ".json", description := "",
             steps := [{}, { cmd := "G00" }, {}], version := "1.0",
             created_at := "T0", modified_at := "T0" } ∧
    ([({} : Enhanced.Step), { cmd := "G00" }, {}].length =
      [JValue.obj [], JValue.obj [("cmd", JValue.str "G00")], JValue.obj []].length) :=
  ⟨rfl,
   (legacy_load "pick_cup.json" "T0"
      [JValue.obj [], JValue.obj [("cmd", JValue.str "G00")], JValue.obj []]
      [{}, { cmd := "G00" }, {}] rfl).1,
   (legacy_load "pick_cup.json" "T0"
      [JValue.obj [], JValue.obj [("cmd", JValue.str "G00")], JValue.obj []]
      [{}, { cmd := "G00" }, {}] rfl).2⟩

/-- C9 counterexample: for base name "a.json.json" the legacy load names
the program "a", not the base name without its ".json" extension
("a.json"), because `str.replace` deletes every occurrence. -/
theorem legacy_name_strips_every_occurrence :
    (Enhanced.Program.load "a.json.json" "T0" (JValue.arr [JValue.obj []])).map
        Enhanced.Program.name = some "a" ∧
    stripJsonExt "a.json.json" = "a.json" ∧
    ("a" : String) ≠ "a.json" :=
  ⟨rfl, rfl, by decide⟩

end JuiceKiosk
